import Mathlib

/-!
Verification of the insight generation and history pipeline of the pharmis
health-tracking application (src/server/index.js).

The development shallowly embeds the pipeline as pure Lean functions:
the relational stores become lists of rows, the SQL queries become
filter/sort operations, and the external completion service becomes an
explicit oracle value.  Calendar dates are treated as timezone-free
`YYYY-MM-DD` strings with civil-calendar arithmetic.  String operations
are modelled at the character-list level so that every definition is
kernel-executable.
-/

namespace Pharmis

/-! ## String utilities (ASCII-level models of the JS string operations) -/

/-- ASCII lowercasing of one character (model of `toLowerCase` on ASCII). -/
def lowerChar (c : Char) : Char :=
  if c.toNat ≥ 65 && c.toNat ≤ 90 then Char.ofNat (c.toNat + 32) else c

/-- Model of JS `toLowerCase` for ASCII text. -/
def toLowerStr (s : String) : String := ⟨s.data.map lowerChar⟩

/-- Trim of leading and trailing whitespace (model of JS `trim`). -/
def trimL (s : List Char) : List Char :=
  ((s.dropWhile Char.isWhitespace).reverse.dropWhile Char.isWhitespace).reverse

def trimStr (s : String) : String := ⟨trimL s.data⟩

/-- Split on a single separator character, preserving empty pieces
(model of JS `split(sep)` with a one-character separator). -/
def splitOnCharL (sep : Char) : List Char → List (List Char)
  | [] => [[]]
  | c :: rest =>
      let r := splitOnCharL sep rest
      if c = sep then [] :: r
      else (c :: r.headD []) :: r.tail

def splitOnChar (sep : Char) (s : String) : List String :=
  (splitOnCharL sep s.data).map fun l => ⟨l⟩

/-- Join with a single separator character (model of `Array.prototype.join`). -/
def joinSepL (sep : Char) : List (List Char) → List Char
  | [] => []
  | [l] => l
  | l :: ls => l ++ sep :: joinSepL sep ls

def joinSep (sep : Char) (ls : List String) : String :=
  ⟨joinSepL sep (ls.map String.data)⟩

/-- Lexicographic "less or equal" on character lists, comparing code points.
For canonical `YYYY-MM-DD` strings this coincides with chronological order,
with the SQL `DATE` comparison used by `BETWEEN`, and with the default JS
`Array.prototype.sort` order. -/
def strLeL : List Char → List Char → Bool
  | [], _ => true
  | _ :: _, [] => false
  | a :: as, b :: bs =>
      decide (a.toNat < b.toNat) || (decide (a.toNat = b.toNat) && strLeL as bs)

def strLe (a b : String) : Bool := strLeL a.data b.data

/-- `isPrefixL pat s` : does `s` start with `pat`? -/
def isPrefixL : List Char → List Char → Bool
  | [], _ => true
  | _ :: _, [] => false
  | a :: as, b :: bs => decide (a = b) && isPrefixL as bs

/-- `hasSubL pat s` : does `s` contain `pat` as a contiguous substring?
Model of JS `String.prototype.includes` / an unanchored literal regex. -/
def hasSubL (pat : List Char) : List Char → Bool
  | [] => pat.isEmpty
  | c :: rest => isPrefixL pat (c :: rest) || hasSubL pat rest

def hasSub (s pat : String) : Bool := hasSubL pat.data s.data

/-- Model of the unanchored regex `\d{2}:\d{2}`: some position of the string
starts with digit, digit, colon, digit, digit. -/
def hasTimePatL : List Char → Bool
  | a :: b :: c :: d :: e :: rest =>
      (a.isDigit && b.isDigit && decide (c = ':') && d.isDigit && e.isDigit)
        || hasTimePatL (b :: c :: d :: e :: rest)
  | _ => false

/-- Tail of the regex `here are \d+-?\d* concrete, actionable, context-aware
insights` after the literal `here are `: one or more digits, an optional dash,
more digits, then the closing literal. -/
def hereAreTail (cs : List Char) : Bool :=
  let p := cs.span (fun c => c.isDigit)
  !p.1.isEmpty &&
    (let r2 := match p.2 with
      | '-' :: t => t
      | other => other
     let q := r2.span (fun c => c.isDigit)
     isPrefixL " concrete, actionable, context-aware insights".data q.2)

/-- Unanchored match of the `here are \d+-?\d* concrete, actionable,
context-aware insights` pattern (on an already lowercased line). -/
def hasHereAreInsightsL : List Char → Bool
  | [] => false
  | c :: rest =>
      (isPrefixL "here are ".data (c :: rest)
        && hereAreTail ((c :: rest).drop 9))
      || hasHereAreInsightsL rest

/-- Full-line match of `^here (is|are) (the )?generated health insights:?$`
on an already lowercased line. -/
def isHereGenerated (l : String) : Bool :=
  l == "here is generated health insights" ||
  l == "here is generated health insights:" ||
  l == "here is the generated health insights" ||
  l == "here is the generated health insights:" ||
  l == "here are generated health insights" ||
  l == "here are generated health insights:" ||
  l == "here are the generated health insights" ||
  l == "here are the generated health insights:"

/-! ## Insight Extractor (src/server/index.js, `extractActionableInsight`) -/

/-- The noise filter applied to each trimmed line of the completion text:
a line is discarded when any of the case-insensitive patterns
`GMT|IST|Standard Time|\d{2}:\d{2}`, the boilerplate-preamble patterns, or the
standalone `insight:?` pattern hits. -/
def noisyLine (line : String) : Bool :=
  let l := toLowerStr line
  hasSub l "gmt" || hasSub l "ist" || hasSub l "standard time" ||
  hasTimePatL line.data ||
  hasHereAreInsightsL l.data ||
  hasSub l "for the 7-day window ending" ||
  hasSub l "ai health insight" ||
  hasSub l "as a professional healthcare insights" ||
  isHereGenerated l ||
  l == "insight" || l == "insight:"

/-- Strip a leading run and a trailing run of the character `c`
(model of `replace(/^\*+|\*+$/g, '')` and the `_` analogue). -/
def stripRuns (c : Char) (s : List Char) : List Char :=
  ((s.dropWhile (fun x => x == c)).reverse.dropWhile (fun x => x == c)).reverse

/-- Remove surrounding markdown emphasis: first `*` runs, then `_` runs. -/
def cleanLine (s : String) : String :=
  ⟨stripRuns '_' (stripRuns '*' s.data)⟩

/-- The surviving lines of the completion text: split on newlines, trim,
drop empty and noisy lines. -/
def extractLines (s : String) : List String :=
  ((splitOnChar '\n' s).map trimStr).filter
    (fun l => !l.isEmpty && !noisyLine l)

/-- First pass of the extractor: the first line that splits on a colon into a
non-empty title and a content of length > 10, neither being a generic
placeholder. -/
def firstColonCandidate : List String → Option (String × String)
  | [] => none
  | l :: ls =>
      let c := cleanLine l
      let parts := splitOnChar ':' c
      let title := parts.headD ""
      let content := trimStr (joinSep ':' parts.tail)
      if !title.isEmpty && !content.isEmpty && content.length > 10 &&
          !(toLowerStr content == "here is the insight") &&
          !(toLowerStr title == "insight") &&
          !(toLowerStr title == "here is the insight") then
        some (⟨(trimStr title).data.take 255⟩, ⟨content.data.take 10000⟩)
      else
        firstColonCandidate ls

/-- Second pass of the extractor: the first cleaned line longer than 20
characters that does not contain a "no data"-style phrase. -/
def fallbackLine : List String → Option String
  | [] => none
  | l :: ls =>
      let c := cleanLine l
      let lc := toLowerStr c
      if c.length > 20 &&
          !hasSub lc "no actionable health insight" &&
          !hasSub lc "no health or lifestyle data" &&
          !hasSub lc "not enough data" &&
          !hasSub lc "insufficient data" &&
          !hasSub lc "no data" &&
          !hasSub lc "here is the insight" then
        some ⟨c.data.take 10000⟩
      else
        fallbackLine ls

/-- Embedding of `extractActionableInsight`: filter the lines, take the first
colon-delimited candidate, otherwise fall back to a long non-generic line
wrapped under the title "Health Insight", otherwise `none`. -/
def extractActionableInsight (aiAnalysis : String) : Option (String × String) :=
  if aiAnalysis.isEmpty then none
  else
    let lines := extractLines aiAnalysis
    match firstColonCandidate lines with
    | some p => some p
    | none => (fallbackLine lines).map (fun c => ("Health Insight", c))

/-! ## Category classification (src/server/index.js, `determineCategory`) -/

def determineCategory (insight : String) : String :=
  let l := toLowerStr insight
  if hasSub l "sleep" then "Sleep"
  else if hasSub l "exercise" || hasSub l "activity" then "Exercise"
  else if hasSub l "water" || hasSub l "hydration" then "Hydration"
  else if hasSub l "mood" || hasSub l "emotional" then "Mood"
  else if hasSub l "symptom" || hasSub l "pain" then "Symptoms"
  else if hasSub l "medication" || hasSub l "medicine" then "Medication"
  else "General"

/-- Modelled from the spec (§4.2 / §9): the classification expressed as an
ordered first-match scan over (keyword set, category) pairs.  Used only to
compare against `determineCategory` as translated from the source. -/
def categoryRules : List (List String × String) :=
  [(["sleep"], "Sleep"),
   (["exercise", "activity"], "Exercise"),
   (["water", "hydration"], "Hydration"),
   (["mood", "emotional"], "Mood"),
   (["symptom", "pain"], "Symptoms"),
   (["medication", "medicine"], "Medication")]

/-- Modelled from the spec: first-match-wins keyword classification. -/
def categorySpec (s : String) : String :=
  let l := toLowerStr s
  match categoryRules.find? (fun p => p.1.any (fun k => hasSub l k)) with
  | some p => p.2
  | none => "General"

/-- Sanity example: the extractor grammar on a colon-delimited line. -/
example :
    extractActionableInsight "A Title: this is some content here" =
      some ("A Title", "this is some content here") := by decide

example : determineCategory "better sleep and exercise" = "Sleep" := by decide

/-! ## Calendar dates

The pipeline receives dates as `YYYY-MM-DD` strings and validates them with
the regex `^\d{4}-\d{2}-\d{2}$`.  Window arithmetic (`setDate(getDate() - 6)`
on a JS `Date`) is modelled timezone-free on civil calendar triples. -/

/-- Model of the regex test `^\d{4}-\d{2}-\d{2}$` from `getExistingInsight`. -/
def validDateFmt (s : String) : Bool :=
  match s.data with
  | [a, b, c, d, e, f, g, h, i, j] =>
      a.isDigit && b.isDigit && c.isDigit && d.isDigit &&
      decide (e = '-') && f.isDigit && g.isDigit &&
      decide (h = '-') && i.isDigit && j.isDigit
  | _ => false

structure CivilDate where
  year : Nat
  month : Nat
  day : Nat
deriving DecidableEq, Repr

def isLeap (y : Nat) : Bool :=
  y % 4 == 0 && (y % 100 != 0 || y % 400 == 0)

def daysInMonth (y m : Nat) : Nat :=
  if m == 2 then (if isLeap y then 29 else 28)
  else if m == 4 || m == 6 || m == 9 || m == 11 then 30
  else 31

/-- The (year, month) pair preceding month `m` of year `y`. -/
def prevMonth (y m : Nat) : Nat × Nat :=
  if m == 1 then (y - 1, 12) else (y, m - 1)

/-- The previous calendar day of a valid civil date. -/
def predDay (c : CivilDate) : CivilDate :=
  if 2 ≤ c.day then ⟨c.year, c.month, c.day - 1⟩
  else
    let p := prevMonth c.year c.month
    ⟨p.1, p.2, daysInMonth p.1 p.2⟩

/-- Embedding of the window-start computation
`d.setDate(d.getDate() - 6)`: subtract 6 from the day of month and, when the
result drops below 1, borrow the length of the previous month — exactly the
normalization JS `Date.setDate` performs for a day-of-month value `≤ 0`. -/
def subDays6 (c : CivilDate) : CivilDate :=
  if 7 ≤ c.day then ⟨c.year, c.month, c.day - 6⟩
  else
    let p := prevMonth c.year c.month
    ⟨p.1, p.2, daysInMonth p.1 p.2 + c.day - 6⟩

def digitVal (c : Char) : Nat := c.toNat - 48

/-- Parse a validated `YYYY-MM-DD` string into a civil date. -/
def parseDate (s : String) : CivilDate :=
  match s.data with
  | [a, b, c, d, _, f, g, _, i, j] =>
      ⟨digitVal a * 1000 + digitVal b * 100 + digitVal c * 10 + digitVal d,
       digitVal f * 10 + digitVal g,
       digitVal i * 10 + digitVal j⟩
  | _ => ⟨1970, 1, 1⟩

def pad2 (n : Nat) : String := if n < 10 then "0" ++ toString n else toString n

def pad4 (n : Nat) : String :=
  if n < 10 then "000" ++ toString n
  else if n < 100 then "00" ++ toString n
  else if n < 1000 then "0" ++ toString n
  else toString n

/-- Format a civil date back to `YYYY-MM-DD` (model of
`toISOString().slice(0, 10)`). -/
def formatDate (c : CivilDate) : String :=
  pad4 c.year ++ "-" ++ pad2 c.month ++ "-" ++ pad2 c.day

/-- The window start used by both the single-date route and the history
route: the target date moved back 6 days, re-serialized. -/
def windowStartStr (d : String) : String :=
  formatDate (subDays6 (parseDate d))

/-! ## Data model and stores -/

/-- A row of `daily_logs` or `lifestyle_logs`, reduced to the two columns the
pipeline queries on (`SELECT *` returns more, but only `user_id` and `date`
influence control flow; the full row is serialized opaquely into the
prompt). -/
structure LogRow where
  user_id : Nat
  date : String
deriving DecidableEq, Repr

/-- The two log tables consumed by the pipeline. -/
structure LogsDB where
  dailyLogs : List LogRow
  lifestyleLogs : List LogRow
deriving DecidableEq, Repr

/-- A row of `health_insights` (the Insight Record Store). -/
structure InsightRecord where
  user_id : Nat
  title : String
  content : String
  category : String
  generated_date : String
deriving DecidableEq, Repr

/-- Model of SQL `DATE(generated_date)` on a `YYYY-MM-DD HH:MM:SS` string:
keep the first 10 characters. -/
def dayKey (s : String) : String := ⟨s.data.take 10⟩

/-- Insertion into a sorted list (ascending by `le`). -/
def insertLe {α : Type} (le : α → α → Bool) (x : α) : List α → List α
  | [] => [x]
  | y :: ys => if le x y then x :: y :: ys else y :: insertLe le x ys

/-- Insertion sort; models the `ORDER BY date ASC` of the SQL queries and the
default JS `Array.prototype.sort`. -/
def sortLe {α : Type} (le : α → α → Bool) : List α → List α
  | [] => []
  | x :: xs => insertLe le x (sortLe le xs)

def rowLe (a b : LogRow) : Bool := strLe a.date b.date

/-- Model of
`SELECT * FROM t WHERE user_id = ? AND date BETWEEN ? AND ? ORDER BY date ASC`. -/
def queryLogs (rows : List LogRow) (u : Nat) (lo hi : String) : List LogRow :=
  sortLe rowLe (rows.filter fun r =>
    (r.user_id == u) && strLe lo r.date && strLe r.date hi)

/-- Embedding of `getExistingInsight`'s query
(`...WHERE user_id = ? AND DATE(generated_date) = ? LIMIT 1`).  The
format-validation guard of `getExistingInsight` is part of the pipeline
embedding (`getOrGenerateInsight`), which performs it before this query. -/
def findInsight (store : List InsightRecord) (u : Nat) (d : String) :
    Option InsightRecord :=
  store.find? fun r => (r.user_id == u) && (dayKey r.generated_date == d)

/-! ## The generation pipeline (POST /api/insights/generate and the per-date
body of GET /api/insights/history) -/

/-- Outcome of one round trip to the Language Completion Client:
the `fetch` call can throw (network failure), `response.json()` can throw
(malformed body), or the body parses and the completion text field
`choices[0].message.content` is present or absent. -/
inductive CompletionResult
  | fetchError
  | badJson
  | ok (content : Option String)
deriving DecidableEq, Repr

/-- Errors thrown inside the pipeline body (the route's outer `catch`
converts any of them into a generic HTTP 500 response). -/
inductive GenError
  | dateRequired
  | invalidDateFormat
  | completionFailure
deriving DecidableEq, Repr

deriving instance DecidableEq for Except

/-- Result of one pipeline invocation: the value returned to the caller (or
the error thrown), the resulting insight store, and whether a completion
call and an insight-store query were performed. -/
structure GenOutcome where
  result : Except GenError InsightRecord
  insights : List InsightRecord
  completionCalled : Bool
  storeQueried : Bool
deriving DecidableEq, Repr

/-- The fixed record persisted on the no-data short-circuit. -/
def noDataRecord (u : Nat) (d : String) : InsightRecord :=
  ⟨u, "No Health Data",
   "No health or lifestyle data was logged for this day.",
   "General", d ++ " 00:00:00"⟩

/-- The fixed fallback record persisted when extraction yields nothing. -/
def noActionableRecord (u : Nat) (d : String) : InsightRecord :=
  ⟨u, "No Actionable Insight",
   "No actionable health insight could be generated for this day.",
   "General", d ++ " 00:00:00"⟩

/-- The completion-and-extraction stage: a `fetch` throw or a
`response.json()` throw propagates as an error; otherwise the optional
completion text field is trimmed (absent becomes `''`) and run through the
extractor, producing either the fixed fallback record or the classified
extracted record. -/
def completionRecord (comp : CompletionResult) (u : Nat) (d : String) :
    Except GenError InsightRecord :=
  match comp with
  | .fetchError => .error .completionFailure
  | .badJson => .error .completionFailure
  | .ok content =>
    match extractActionableInsight ((content.map trimStr).getD "") with
    | none => .ok (noActionableRecord u d)
    | some (t, c) =>
      .ok ⟨u, t, c, determineCategory (t ++ ": " ++ c), d ++ " 00:00:00"⟩

/-- Embedding of the pipeline body shared by `POST /api/insights/generate`
and the per-date loop body of `GET /api/insights/history`:
date-format guard, idempotency check, 7-day windowing, no-data
short-circuit, completion call, extraction, classification, persistence. -/
def getOrGenerateInsight (db : LogsDB) (comp : CompletionResult)
    (store : List InsightRecord) (u : Nat) (d : String) : GenOutcome :=
  if !validDateFmt d then
    ⟨.error .invalidDateFormat, store, false, false⟩
  else
    match findInsight store u d with
    | some r => ⟨.ok r, store, false, true⟩
    | none =>
      if (queryLogs db.dailyLogs u (windowStartStr d) d).isEmpty &&
          (queryLogs db.lifestyleLogs u (windowStartStr d) d).isEmpty then
        ⟨.ok (noDataRecord u d), store ++ [noDataRecord u d], false, true⟩
      else
        match completionRecord comp u d with
        | .error e => ⟨.error e, store, true, true⟩
        | .ok r0 => ⟨.ok r0, store ++ [r0], true, true⟩

/-- The full single-date route, including the `Date is required` guard on the
request body. -/
def generateRoute (db : LogsDB) (comp : CompletionResult)
    (store : List InsightRecord) (u : Nat) (date : Option String) :
    GenOutcome :=
  match date with
  | none => ⟨.error .dateRequired, store, false, false⟩
  | some d => getOrGenerateInsight db comp store u d

/-! ## History listing (GET /api/insights/history) -/

/-- Embedding of `getAllLogDates`: the union of the distinct `date` values of
both log tables for the user, truncated to `YYYY-MM-DD`, deduplicated and
sorted ascending. -/
def getAllLogDates (db : LogsDB) (u : Nat) : List String :=
  sortLe strLe
    (((db.dailyLogs.filter (fun r => r.user_id == u)).map
        (fun r => dayKey r.date) ++
      (db.lifestyleLogs.filter (fun r => r.user_id == u)).map
        (fun r => dayKey r.date)).dedup)

/-- Date selection of the history route: the trailing `days` dates
(`allDates.slice(-days)`), plus the most recent log date when it is not
already present, deduplicated and sorted. -/
def selectHistoryDates (allDates : List String) (days : Nat) : List String :=
  let dates := allDates.drop (allDates.length - days)
  let latest := allDates.getLastD ""
  let dates := if dates.contains latest then dates else dates ++ [latest]
  sortLe strLe dates.dedup

/-- The per-date loop of the history route: each date runs the shared
pipeline body; a thrown error is caught and the date skipped
(`catch ... continue`), everything else is appended to the results. -/
def historyLoop (db : LogsDB) (comp : String → CompletionResult) (u : Nat) :
    List InsightRecord → List String → List InsightRecord × List InsightRecord
  | store, [] => ([], store)
  | store, d :: ds =>
      match (getOrGenerateInsight db (comp d) store u d).result with
      | .ok r =>
          let rest :=
            historyLoop db comp u
              (getOrGenerateInsight db (comp d) store u d).insights ds
          (r :: rest.1, rest.2)
      | .error _ =>
          historyLoop db comp u
            (getOrGenerateInsight db (comp d) store u d).insights ds

/-- Embedding of `GET /api/insights/history`: `days` defaults to 7 when the
query parameter is missing/zero; an empty date set returns `[]`
immediately. -/
def listInsightsHistory (db : LogsDB) (comp : String → CompletionResult)
    (u : Nat) (store : List InsightRecord) (daysReq : Nat) :
    List InsightRecord × List InsightRecord :=
  let allDates := getAllLogDates db u
  if allDates.isEmpty then ([], store)
  else
    let days := if daysReq == 0 then 7 else daysReq
    historyLoop db comp u store (selectHistoryDates allDates days)

example :
    getOrGenerateInsight ⟨[], []⟩ (.ok none) [] 1 "2024-01-05" =
      ⟨.ok (noDataRecord 1 "2024-01-05"), [noDataRecord 1 "2024-01-05"],
        false, true⟩ := by decide

/-! ## Order lemmas for `strLe` -/

theorem strLeL_total (a : List Char) :
    ∀ b : List Char, strLeL a b = true ∨ strLeL b a = true := by
  induction a with
  | nil => intro b; left; rfl
  | cons x xs ih =>
      intro b
      cases b with
      | nil => right; rfl
      | cons y ys =>
          rcases Nat.lt_trichotomy x.toNat y.toNat with h | h | h
          · left
            simp [strLeL, h]
          · rcases ih ys with h2 | h2
            · left
              simp [strLeL, h, h2]
            · right
              simp [strLeL, h.symm, h2]
          · right
            simp [strLeL, h]

theorem strLeL_trans :
    ∀ a b c : List Char,
      strLeL a b = true → strLeL b c = true → strLeL a c = true := by
  intro a
  induction a with
  | nil => intro b c _ _; rfl
  | cons x xs ih =>
      intro b c hab hbc
      cases b with
      | nil => cases hab
      | cons y ys =>
          cases c with
          | nil => cases hbc
          | cons z zs =>
              simp only [strLeL, Bool.or_eq_true, Bool.and_eq_true,
                decide_eq_true_eq] at hab hbc ⊢
              rcases hab with h1 | ⟨h1, h1'⟩
              · rcases hbc with h2 | ⟨h2, _⟩
                · exact Or.inl (Nat.lt_trans h1 h2)
                · exact Or.inl (h2 ▸ h1)
              · rcases hbc with h2 | ⟨h2, h2'⟩
                · exact Or.inl (h1 ▸ h2)
                · exact Or.inr ⟨h1.trans h2, ih ys zs h1' h2'⟩

theorem strLe_total (a b : String) : strLe a b = true ∨ strLe b a = true :=
  strLeL_total a.data b.data

theorem strLe_trans {a b c : String}
    (h1 : strLe a b = true) (h2 : strLe b c = true) : strLe a c = true :=
  strLeL_trans a.data b.data c.data h1 h2

/-! ## Insertion-sort lemmas -/

theorem insertLe_perm {α : Type} (le : α → α → Bool) (x : α) :
    ∀ l : List α, List.Perm (insertLe le x l) (x :: l) := by
  intro l
  induction l with
  | nil => simp [insertLe]
  | cons y ys ih =>
      simp only [insertLe]
      split
      · exact List.Perm.refl _
      · exact (List.Perm.cons y ih).trans (List.Perm.swap x y ys)

theorem sortLe_perm {α : Type} (le : α → α → Bool) :
    ∀ l : List α, List.Perm (sortLe le l) l := by
  intro l
  induction l with
  | nil => exact List.Perm.refl _
  | cons x xs ih =>
      simp only [sortLe]
      exact (insertLe_perm le x (sortLe le xs)).trans (List.Perm.cons x ih)

theorem mem_insertLe {α : Type} {le : α → α → Bool} {x z : α} {l : List α}
    (h : z ∈ insertLe le x l) : z = x ∨ z ∈ l := by
  have := (insertLe_perm le x l).mem_iff.mp h
  simpa using this

theorem pairwise_insertLe {α : Type} {le : α → α → Bool}
    (htot : ∀ a b, le a b = true ∨ le b a = true)
    (htrans : ∀ a b c, le a b = true → le b c = true → le a c = true)
    (x : α) :
    ∀ l : List α, List.Pairwise (fun a b => le a b = true) l →
      List.Pairwise (fun a b => le a b = true) (insertLe le x l) := by
  intro l
  induction l with
  | nil => intro _; simp [insertLe]
  | cons y ys ih =>
      intro h
      rcases List.pairwise_cons.mp h with ⟨hy, hys⟩
      simp only [insertLe]
      split
      · rename_i hxy
        refine List.pairwise_cons.mpr ⟨?_, h⟩
        intro z hz
        rcases List.mem_cons.mp hz with rfl | hz
        · exact hxy
        · exact htrans x y z hxy (hy z hz)
      · rename_i hxy
        have hyx : le y x = true := by
          rcases htot x y with h' | h'
          · exact absurd h' hxy
          · exact h'
        refine List.pairwise_cons.mpr ⟨?_, ih hys⟩
        intro z hz
        rcases mem_insertLe hz with rfl | hz
        · exact hyx
        · exact hy z hz

theorem pairwise_sortLe {α : Type} {le : α → α → Bool}
    (htot : ∀ a b, le a b = true ∨ le b a = true)
    (htrans : ∀ a b c, le a b = true → le b c = true → le a c = true) :
    ∀ l : List α, List.Pairwise (fun a b => le a b = true) (sortLe le l) := by
  intro l
  induction l with
  | nil => simp [sortLe]
  | cons x xs ih =>
      simp only [sortLe]
      exact pairwise_insertLe htot htrans x _ ih

theorem insertLe_of_le_head {α : Type} {le : α → α → Bool} {x : α} :
    ∀ {l : List α}, (∀ y ys, l = y :: ys → le x y = true) →
      insertLe le x l = x :: l := by
  intro l h
  cases l with
  | nil => rfl
  | cons y ys => simp [insertLe, h y ys rfl]

theorem sortLe_eq_self {α : Type} {le : α → α → Bool} :
    ∀ {l : List α}, List.Pairwise (fun a b => le a b = true) l →
      sortLe le l = l := by
  intro l
  induction l with
  | nil => intro _; rfl
  | cons x xs ih =>
      intro h
      rcases List.pairwise_cons.mp h with ⟨hx, hxs⟩
      simp only [sortLe, ih hxs]
      refine insertLe_of_le_head ?_
      intro y ys hys
      exact hx y (hys ▸ List.mem_cons_self y ys)

theorem nodup_sortLe {α : Type} {le : α → α → Bool} {l : List α}
    (h : l.Nodup) : (sortLe le l).Nodup :=
  ((sortLe_perm le l).nodup_iff).mpr h

/-! ## Day-key and store lemmas -/

theorem validDateFmt_length {d : String} (h : validDateFmt d = true) :
    d.data.length = 10 := by
  unfold validDateFmt at h
  split at h
  · rename_i heq
    rw [heq]
    rfl
  · cases h

theorem data_append (a b : String) : (a ++ b).data = a.data ++ b.data := rfl

theorem dayKey_append_of_len10 {d : String} (h : d.data.length = 10)
    (t : String) : dayKey (d ++ t) = d := by
  unfold dayKey
  rw [data_append, show 10 = d.data.length from h.symm, List.take_left]

/-- The three records the pipeline can persist all carry the target date as
their calendar-day key and the caller's user id. -/
theorem completionRecord_ok {comp : CompletionResult} {u : Nat} {d : String}
    {r : InsightRecord} (h : completionRecord comp u d = .ok r) :
    r.user_id = u ∧ r.generated_date = d ++ " 00:00:00" := by
  unfold completionRecord at h
  cases comp with
  | fetchError => cases h
  | badJson => cases h
  | ok content =>
      cases hx : extractActionableInsight ((content.map trimStr).getD "") with
      | none =>
          simp only [hx] at h
          cases h
          exact ⟨rfl, rfl⟩
      | some p =>
          obtain ⟨t, c⟩ := p
          simp only [hx] at h
          cases h
          exact ⟨rfl, rfl⟩

theorem findInsight_append (store extra : List InsightRecord) (u : Nat)
    (d : String) (h : findInsight extra u d = none) :
    findInsight (store ++ extra) u d = findInsight store u d := by
  unfold findInsight at *
  rw [List.find?_append, h]
  cases store.find? fun r => (r.user_id == u) && (dayKey r.generated_date == d) <;> rfl

theorem findInsight_eq_none_of_keys (extra : List InsightRecord) (u : Nat)
    (d : String) (h : ∀ r ∈ extra, dayKey r.generated_date ≠ d) :
    findInsight extra u d = none := by
  unfold findInsight
  rw [List.find?_eq_none]
  intro r hr
  simp only [Bool.and_eq_true, beq_iff_eq, not_and]
  intro _
  exact h r hr

theorem findInsight_single_hit (u : Nat) (d : String) {r : InsightRecord}
    (hu : r.user_id = u) (hk : dayKey r.generated_date = d) :
    findInsight [r] u d = some r := by
  unfold findInsight
  simp [List.find?, hu, hk]

/-! ## Branch-evaluation lemmas for the pipeline -/

theorem getOrGenerate_invalid (db : LogsDB) (comp : CompletionResult)
    (store : List InsightRecord) (u : Nat) (d : String)
    (h : validDateFmt d = false) :
    getOrGenerateInsight db comp store u d =
      ⟨.error .invalidDateFormat, store, false, false⟩ := by
  simp [getOrGenerateInsight, h]

theorem getOrGenerate_existing (db : LogsDB) (comp : CompletionResult)
    (store : List InsightRecord) (u : Nat) (d : String) (r : InsightRecord)
    (hv : validDateFmt d = true) (hfind : findInsight store u d = some r) :
    getOrGenerateInsight db comp store u d = ⟨.ok r, store, false, true⟩ := by
  simp [getOrGenerateInsight, hv, hfind]

theorem getOrGenerate_noData (db : LogsDB) (comp : CompletionResult)
    (store : List InsightRecord) (u : Nat) (d : String)
    (hv : validDateFmt d = true) (hfind : findInsight store u d = none)
    (hempty : ((queryLogs db.dailyLogs u (windowStartStr d) d).isEmpty &&
        (queryLogs db.lifestyleLogs u (windowStartStr d) d).isEmpty) = true) :
    getOrGenerateInsight db comp store u d =
      ⟨.ok (noDataRecord u d), store ++ [noDataRecord u d], false, true⟩ := by
  simp only [getOrGenerateInsight, hv, hfind, hempty, Bool.not_true, if_pos]
  rfl

theorem getOrGenerate_comp_error (db : LogsDB) (comp : CompletionResult)
    (store : List InsightRecord) (u : Nat) (d : String) (e : GenError)
    (hv : validDateFmt d = true) (hfind : findInsight store u d = none)
    (hempty : ((queryLogs db.dailyLogs u (windowStartStr d) d).isEmpty &&
        (queryLogs db.lifestyleLogs u (windowStartStr d) d).isEmpty) = false)
    (hcomp : completionRecord comp u d = .error e) :
    getOrGenerateInsight db comp store u d = ⟨.error e, store, true, true⟩ := by
  simp [getOrGenerateInsight, hv, hfind, hempty, hcomp]

theorem getOrGenerate_comp_ok (db : LogsDB) (comp : CompletionResult)
    (store : List InsightRecord) (u : Nat) (d : String) (r0 : InsightRecord)
    (hv : validDateFmt d = true) (hfind : findInsight store u d = none)
    (hempty : ((queryLogs db.dailyLogs u (windowStartStr d) d).isEmpty &&
        (queryLogs db.lifestyleLogs u (windowStartStr d) d).isEmpty) = false)
    (hcomp : completionRecord comp u d = .ok r0) :
    getOrGenerateInsight db comp store u d =
      ⟨.ok r0, store ++ [r0], true, true⟩ := by
  simp [getOrGenerateInsight, hv, hfind, hempty, hcomp]

/-- A successful fresh generation appends exactly its returned record, and
that record carries the caller's user id and the target date as its day
key. -/
theorem getOrGenerate_ok_shape (db : LogsDB) (comp : CompletionResult)
    (store : List InsightRecord) (u : Nat) (d : String) (r : InsightRecord)
    (hfind : findInsight store u d = none)
    (hok : (getOrGenerateInsight db comp store u d).result = .ok r) :
    (getOrGenerateInsight db comp store u d).insights = store ++ [r]
      ∧ r.user_id = u ∧ dayKey r.generated_date = d := by
  by_cases hv : validDateFmt d = true
  · by_cases hempty : ((queryLogs db.dailyLogs u (windowStartStr d) d).isEmpty &&
        (queryLogs db.lifestyleLogs u (windowStartStr d) d).isEmpty) = true
    · rw [getOrGenerate_noData db comp store u d hv hfind hempty] at hok ⊢
      simp only [Except.ok.injEq] at hok
      subst hok
      exact ⟨rfl, rfl, dayKey_append_of_len10 (validDateFmt_length hv) _⟩
    · rw [Bool.not_eq_true] at hempty
      cases hc : completionRecord comp u d with
      | error e =>
          rw [getOrGenerate_comp_error db comp store u d e hv hfind hempty hc]
            at hok
          cases hok
      | ok r0 =>
          rw [getOrGenerate_comp_ok db comp store u d r0 hv hfind hempty hc]
            at hok ⊢
          simp only [Except.ok.injEq] at hok
          subst hok
          rcases completionRecord_ok hc with ⟨hu, hg⟩
          refine ⟨rfl, hu, ?_⟩
          rw [hg]
          exact dayKey_append_of_len10 (validDateFmt_length hv) _
  · rw [Bool.not_eq_true] at hv
    rw [getOrGenerate_invalid db comp store u d hv] at hok
    cases hok

/-- Appending store rows whose day key differs from the target date does not
change the result of the pipeline (only the resulting store). -/
theorem getOrGenerate_result_append (db : LogsDB) (comp : CompletionResult)
    (store extra : List InsightRecord) (u : Nat) (d : String)
    (hextra : findInsight extra u d = none) :
    (getOrGenerateInsight db comp (store ++ extra) u d).result =
      (getOrGenerateInsight db comp store u d).result := by
  have hfind := findInsight_append store extra u d hextra
  by_cases hv : validDateFmt d = true
  · cases hf : findInsight store u d with
    | some r =>
        rw [getOrGenerate_existing db comp (store ++ extra) u d r hv
          (by rw [hfind, hf]), getOrGenerate_existing db comp store u d r hv hf]
    | none =>
        have hf2 : findInsight (store ++ extra) u d = none := by rw [hfind, hf]
        by_cases hempty : ((queryLogs db.dailyLogs u (windowStartStr d) d).isEmpty &&
            (queryLogs db.lifestyleLogs u (windowStartStr d) d).isEmpty) = true
        · rw [getOrGenerate_noData db comp (store ++ extra) u d hv hf2 hempty,
            getOrGenerate_noData db comp store u d hv hf hempty]
        · rw [Bool.not_eq_true] at hempty
          cases hc : completionRecord comp u d with
          | error e =>
              rw [getOrGenerate_comp_error db comp (store ++ extra) u d e hv hf2
                hempty hc, getOrGenerate_comp_error db comp store u d e hv hf
                hempty hc]
          | ok r0 =>
              rw [getOrGenerate_comp_ok db comp (store ++ extra) u d r0 hv hf2
                hempty hc, getOrGenerate_comp_ok db comp store u d r0 hv hf
                hempty hc]
  · rw [Bool.not_eq_true] at hv
    rw [getOrGenerate_invalid db comp (store ++ extra) u d hv,
      getOrGenerate_invalid db comp store u d hv]

/-- Every pipeline invocation leaves the store as the old store plus some
(possibly empty) batch of new records, all keyed by the target date and
owned by the caller. -/
theorem getOrGenerate_insights_shape (db : LogsDB) (comp : CompletionResult)
    (store : List InsightRecord) (u : Nat) (d : String) :
    ∃ new, (getOrGenerateInsight db comp store u d).insights = store ++ new
      ∧ ∀ r ∈ new, r.user_id = u ∧ dayKey r.generated_date = d := by
  by_cases hv : validDateFmt d = true
  · cases hf : findInsight store u d with
    | some r =>
        refine ⟨[], ?_, by intro r hr; cases hr⟩
        rw [getOrGenerate_existing db comp store u d r hv hf,
          List.append_nil]
    | none =>
        by_cases hempty : ((queryLogs db.dailyLogs u (windowStartStr d) d).isEmpty &&
            (queryLogs db.lifestyleLogs u (windowStartStr d) d).isEmpty) = true
        · refine ⟨[noDataRecord u d], ?_, ?_⟩
          · rw [getOrGenerate_noData db comp store u d hv hf hempty]
          · intro r hr
            rcases List.mem_singleton.mp hr with rfl
            exact ⟨rfl, dayKey_append_of_len10 (validDateFmt_length hv) _⟩
        · rw [Bool.not_eq_true] at hempty
          cases hc : completionRecord comp u d with
          | error e =>
              refine ⟨[], ?_, by intro r hr; cases hr⟩
              rw [getOrGenerate_comp_error db comp store u d e hv hf hempty hc,
                List.append_nil]
          | ok r0 =>
              refine ⟨[r0], ?_, ?_⟩
              · rw [getOrGenerate_comp_ok db comp store u d r0 hv hf hempty hc]
              · intro r hr
                rcases List.mem_singleton.mp hr with rfl
                rcases completionRecord_ok hc with ⟨hu, hg⟩
                refine ⟨hu, ?_⟩
                rw [hg]
                exact dayKey_append_of_len10 (validDateFmt_length hv) _
  · rw [Bool.not_eq_true] at hv
    refine ⟨[], ?_, by intro r hr; cases hr⟩
    rw [getOrGenerate_invalid db comp store u d hv, List.append_nil]

/-- A successful pipeline result always carries the caller's user id and the
target date as its day key (whether it came from the idempotency check or
from fresh generation). -/
theorem getOrGenerate_ok_key (db : LogsDB) (comp : CompletionResult)
    (store : List InsightRecord) (u : Nat) (d : String) (r : InsightRecord)
    (hok : (getOrGenerateInsight db comp store u d).result = .ok r) :
    r.user_id = u ∧ dayKey r.generated_date = d := by
  by_cases hv : validDateFmt d = true
  · cases hf : findInsight store u d with
    | some r' =>
        rw [getOrGenerate_existing db comp store u d r' hv hf] at hok
        simp only [Except.ok.injEq] at hok
        subst hok
        have hp := List.find?_some hf
        simp only [Bool.and_eq_true, beq_iff_eq] at hp
        exact hp
    | none => exact (getOrGenerate_ok_shape db comp store u d r hf hok).2
  · rw [Bool.not_eq_true] at hv
    rw [getOrGenerate_invalid db comp store u d hv] at hok
    cases hok

/-! ## History-loop characterization -/

/-- The history loop over a duplicate-free date list behaves as an
order-preserving `filterMap` against the *initial* store: every date whose
generation succeeds contributes its record in place, every date whose
generation throws is skipped, and no failure escapes the loop.  The `extra`
parameter carries the records inserted by earlier iterations (all keyed by
already-processed dates). -/
theorem historyLoop_eq_filterMap (db : LogsDB) (comp : String → CompletionResult)
    (u : Nat) (store : List InsightRecord) :
    ∀ (ds : List String) (extra : List InsightRecord), ds.Nodup →
      (∀ r ∈ extra, dayKey r.generated_date ∉ ds) →
      (historyLoop db comp u (store ++ extra) ds).1 =
        ds.filterMap
          (fun d => (getOrGenerateInsight db (comp d) store u d).result.toOption) := by
  intro ds
  induction ds with
  | nil => intro extra _ _; rfl
  | cons d ds ih =>
      intro extra hnd hkeys
      have hdnotin : d ∉ ds := (List.nodup_cons.mp hnd).1
      have hextra : findInsight extra u d = none := by
        refine findInsight_eq_none_of_keys extra u d ?_
        intro r hr hEq
        exact (hkeys r hr) (hEq ▸ List.mem_cons_self d ds)
      have hres := getOrGenerate_result_append db (comp d) store extra u d hextra
      obtain ⟨new, hins, hnew⟩ :=
        getOrGenerate_insights_shape db (comp d) (store ++ extra) u d
      have hkeys' : ∀ r ∈ extra ++ new, dayKey r.generated_date ∉ ds := by
        intro r hr
        rcases List.mem_append.mp hr with hr | hr
        · intro hmem
          exact (hkeys r hr) (List.mem_cons_of_mem d hmem)
        · rw [(hnew r hr).2]
          exact hdnotin
      have hrec := ih (extra ++ new) (List.nodup_cons.mp hnd).2 hkeys'
      rw [← List.append_assoc] at hrec
      rw [← hins] at hrec
      simp only [historyLoop]
      cases hr0 : (getOrGenerateInsight db (comp d) (store ++ extra) u d).result with
      | ok r =>
          have hsd : (getOrGenerateInsight db (comp d) store u d).result = .ok r := by
            rw [← hres, hr0]
          simp only [List.filterMap_cons, hsd, Except.toOption, hrec]
      | error e =>
          have hsd : (getOrGenerateInsight db (comp d) store u d).result = .error e := by
            rw [← hres, hr0]
          simp only [List.filterMap_cons, hsd, Except.toOption, hrec]

/-- Derived: the history loop starting from the actual store, over a
duplicate-free date list, is the `filterMap` of the per-date pipeline against
that store. -/
theorem historyLoop_filterMap (db : LogsDB) (comp : String → CompletionResult)
    (u : Nat) (store : List InsightRecord) (ds : List String)
    (hnd : ds.Nodup) :
    (historyLoop db comp u store ds).1 =
      ds.filterMap
        (fun d => (getOrGenerateInsight db (comp d) store u d).result.toOption) := by
  have h := historyLoop_eq_filterMap db comp u store ds [] hnd
    (by intro r hr; cases hr)
  rwa [List.append_nil] at h

/-! ## Date-selection lemmas for the history route -/

theorem getLast?_drop_of_lt {α : Type} :
    ∀ (l : List α) (n : Nat), n < l.length →
      (l.drop n).getLast? = l.getLast? := by
  intro l
  induction l with
  | nil => intro n h; cases h
  | cons a t ih =>
      intro n h
      cases n with
      | zero => rfl
      | succ m =>
          have hm : m < t.length := by simpa using h
          show (t.drop m).getLast? = (a :: t).getLast?
          rw [ih m hm]
          cases t with
          | nil => cases hm
          | cons b t' => rw [List.getLast?_cons_cons]

theorem getLastD_mem_drop {l : List String} {k : Nat}
    (hne : l ≠ []) (hk : 1 ≤ k) :
    l.getLastD "" ∈ l.drop (l.length - k) := by
  have hlen : 0 < l.length := List.length_pos.mpr hne
  have hlt : l.length - k < l.length := by omega
  have h1 : (l.drop (l.length - k)).getLast? = l.getLast? :=
    getLast?_drop_of_lt l _ hlt
  rw [List.getLastD_eq_getLast?]
  cases hx : l.getLast? with
  | none => exact absurd (List.getLast?_eq_none_iff.mp hx) hne
  | some x =>
      simp only [hx, Option.getD_some]
      exact List.mem_of_mem_getLast? (show (l.drop (l.length - k)).getLast? = some x by rw [h1, hx])

/-- On an already ascending, duplicate-free, non-empty date list and a
positive window, the history route's date selection is exactly the trailing
`days` dates: the explicit most-recent-date push never fires (the trailing
window already contains it) and the final dedup-and-sort is the identity. -/
theorem selectHistoryDates_eq_drop {A : List String} {days : Nat}
    (hA : List.Pairwise (fun a b => strLe a b = true) A) (hnd : A.Nodup)
    (hne : A ≠ []) (hdays : 1 ≤ days) :
    selectHistoryDates A days = A.drop (A.length - days) := by
  unfold selectHistoryDates
  have hmem : A.getLastD "" ∈ A.drop (A.length - days) :=
    getLastD_mem_drop hne hdays
  have hcont : (A.drop (A.length - days)).contains (A.getLastD "") = true :=
    List.elem_eq_true_of_mem hmem
  have hndrop : (A.drop (A.length - days)).Nodup :=
    (List.drop_sublist _ _).nodup hnd
  have hpdrop : List.Pairwise (fun a b => strLe a b = true)
      (A.drop (A.length - days)) :=
    hA.sublist (List.drop_sublist _ _)
  simp only [hcont, if_true, List.dedup_eq_self.mpr hndrop]
  exact sortLe_eq_self hpdrop

theorem pairwise_filterMap_of {α β : Type} {R : α → α → Prop}
    {S : β → β → Prop} (f : α → Option β)
    (h : ∀ a a', R a a' → ∀ b, f a = some b → ∀ b', f a' = some b' → S b b') :
    ∀ {l : List α}, List.Pairwise R l → List.Pairwise S (l.filterMap f) := by
  intro l
  induction l with
  | nil => intro _; simp
  | cons x xs ih =>
      intro hp
      rcases List.pairwise_cons.mp hp with ⟨hx, hxs⟩
      cases hfx : f x with
      | none => simpa only [List.filterMap_cons, hfx] using ih hxs
      | some b =>
          simp only [List.filterMap_cons, hfx]
          refine List.pairwise_cons.mpr ⟨?_, ih hxs⟩
          intro b' hb'
          obtain ⟨a', ha'mem, ha'⟩ := List.mem_filterMap.mp hb'
          exact h x a' (hx a' ha'mem) b hfx b' ha'

theorem getAllLogDates_sorted (db : LogsDB) (u : Nat) :
    List.Pairwise (fun a b => strLe a b = true) (getAllLogDates db u) :=
  pairwise_sortLe strLe_total (fun _ _ _ h1 h2 => strLe_trans h1 h2) _

theorem getAllLogDates_nodup (db : LogsDB) (u : Nat) :
    (getAllLogDates db u).Nodup :=
  nodup_sortLe (List.nodup_dedup _)

/-! ## Calendar-arithmetic lemmas -/

theorem daysInMonth_ge28 (y m : Nat) : 28 ≤ daysInMonth y m := by
  unfold daysInMonth
  split
  · split <;> omega
  · split <;> omega

theorem predDay_eq (y m a b : Nat) (h2 : 2 ≤ a) (hb : b = a - 1) :
    predDay ⟨y, m, a⟩ = ⟨y, m, b⟩ := by
  subst hb
  simp [predDay, h2]

theorem predDay_one (y m : Nat) :
    predDay ⟨y, m, 1⟩ =
      ⟨(prevMonth y m).1, (prevMonth y m).2,
        daysInMonth (prevMonth y m).1 (prevMonth y m).2⟩ := by
  simp [predDay]

theorem predDay_down1 (p1 p2 K : Nat) (hK : 28 ≤ K) :
    predDay ⟨p1, p2, K⟩ = ⟨p1, p2, K - 1⟩ :=
  predDay_eq p1 p2 K (K - 1) (by omega) rfl

theorem predDay_down2 (p1 p2 K : Nat) (hK : 28 ≤ K) :
    predDay (predDay ⟨p1, p2, K⟩) = ⟨p1, p2, K - 2⟩ := by
  rw [predDay_down1 p1 p2 K hK,
    predDay_eq p1 p2 (K - 1) (K - 2) (by omega) (by omega)]

theorem predDay_down3 (p1 p2 K : Nat) (hK : 28 ≤ K) :
    predDay (predDay (predDay ⟨p1, p2, K⟩)) = ⟨p1, p2, K - 3⟩ := by
  rw [predDay_down2 p1 p2 K hK,
    predDay_eq p1 p2 (K - 2) (K - 3) (by omega) (by omega)]

theorem predDay_down4 (p1 p2 K : Nat) (hK : 28 ≤ K) :
    predDay (predDay (predDay (predDay ⟨p1, p2, K⟩))) = ⟨p1, p2, K - 4⟩ := by
  rw [predDay_down3 p1 p2 K hK,
    predDay_eq p1 p2 (K - 3) (K - 4) (by omega) (by omega)]

theorem predDay_down5 (p1 p2 K : Nat) (hK : 28 ≤ K) :
    predDay (predDay (predDay (predDay (predDay ⟨p1, p2, K⟩)))) =
      ⟨p1, p2, K - 5⟩ := by
  rw [predDay_down4 p1 p2 K hK,
    predDay_eq p1 p2 (K - 4) (K - 5) (by omega) (by omega)]

/-- The `setDate(getDate() - 6)` normalization computes exactly the sixth
calendar predecessor of any day-valid civil date. -/
theorem subDays6_eq_six_predDays (c : CivilDate) (hd1 : 1 ≤ c.day) :
    subDays6 c =
      predDay (predDay (predDay (predDay (predDay (predDay c))))) := by
  obtain ⟨y, m, d⟩ := c
  simp only at hd1
  by_cases h7 : 7 ≤ d
  · rw [predDay_eq y m d (d - 1) (by omega) rfl,
      predDay_eq y m (d - 1) (d - 2) (by omega) (by omega),
      predDay_eq y m (d - 2) (d - 3) (by omega) (by omega),
      predDay_eq y m (d - 3) (d - 4) (by omega) (by omega),
      predDay_eq y m (d - 4) (d - 5) (by omega) (by omega),
      predDay_eq y m (d - 5) (d - 6) (by omega) (by omega)]
    simp [subDays6, h7]
  · have hK : 28 ≤ daysInMonth (prevMonth y m).1 (prevMonth y m).2 :=
      daysInMonth_ge28 _ _
    have hsub : subDays6 ⟨y, m, d⟩ =
        ⟨(prevMonth y m).1, (prevMonth y m).2,
          daysInMonth (prevMonth y m).1 (prevMonth y m).2 + d - 6⟩ := by
      simp [subDays6, h7]
    have h6 : d ≤ 6 := by omega
    interval_cases d
    · rw [predDay_one y m, predDay_down5 _ _ _ hK, hsub]
      have harith : daysInMonth (prevMonth y m).1 (prevMonth y m).2 + 1 - 6 =
          daysInMonth (prevMonth y m).1 (prevMonth y m).2 - 5 := by omega
      rw [harith]
    · rw [predDay_eq y m 2 1 (by omega) (by omega), predDay_one y m,
        predDay_down4 _ _ _ hK, hsub]
      have harith : daysInMonth (prevMonth y m).1 (prevMonth y m).2 + 2 - 6 =
          daysInMonth (prevMonth y m).1 (prevMonth y m).2 - 4 := by omega
      rw [harith]
    · rw [predDay_eq y m 3 2 (by omega) (by omega),
        predDay_eq y m 2 1 (by omega) (by omega), predDay_one y m,
        predDay_down3 _ _ _ hK, hsub]
      have harith : daysInMonth (prevMonth y m).1 (prevMonth y m).2 + 3 - 6 =
          daysInMonth (prevMonth y m).1 (prevMonth y m).2 - 3 := by omega
      rw [harith]
    · rw [predDay_eq y m 4 3 (by omega) (by omega),
        predDay_eq y m 3 2 (by omega) (by omega),
        predDay_eq y m 2 1 (by omega) (by omega), predDay_one y m,
        predDay_down2 _ _ _ hK, hsub]
      have harith : daysInMonth (prevMonth y m).1 (prevMonth y m).2 + 4 - 6 =
          daysInMonth (prevMonth y m).1 (prevMonth y m).2 - 2 := by omega
      rw [harith]
    · rw [predDay_eq y m 5 4 (by omega) (by omega),
        predDay_eq y m 4 3 (by omega) (by omega),
        predDay_eq y m 3 2 (by omega) (by omega),
        predDay_eq y m 2 1 (by omega) (by omega), predDay_one y m,
        predDay_down1 _ _ _ hK, hsub]
      have harith : daysInMonth (prevMonth y m).1 (prevMonth y m).2 + 5 - 6 =
          daysInMonth (prevMonth y m).1 (prevMonth y m).2 - 1 := by omega
      rw [harith]
    · rw [predDay_eq y m 6 5 (by omega) (by omega),
        predDay_eq y m 5 4 (by omega) (by omega),
        predDay_eq y m 4 3 (by omega) (by omega),
        predDay_eq y m 3 2 (by omega) (by omega),
        predDay_eq y m 2 1 (by omega) (by omega), predDay_one y m, hsub]
      have harith : daysInMonth (prevMonth y m).1 (prevMonth y m).2 + 6 - 6 =
          daysInMonth (prevMonth y m).1 (prevMonth y m).2 := by omega
      rw [harith]

/-! ## Query lemmas -/

theorem queryLogs_perm (rows : List LogRow) (u : Nat) (lo hi : String) :
    List.Perm (queryLogs rows u lo hi)
      (rows.filter fun r =>
        (r.user_id == u) && strLe lo r.date && strLe r.date hi) :=
  sortLe_perm _ _

theorem rowLe_total (a b : LogRow) : rowLe a b = true ∨ rowLe b a = true :=
  strLe_total a.date b.date

theorem rowLe_trans (a b c : LogRow) (h1 : rowLe a b = true)
    (h2 : rowLe b c = true) : rowLe a c = true :=
  strLe_trans h1 h2

theorem queryLogs_sorted (rows : List LogRow) (u : Nat) (lo hi : String) :
    List.Pairwise (fun a b => rowLe a b = true) (queryLogs rows u lo hi) := by
  unfold queryLogs
  exact pairwise_sortLe rowLe_total rowLe_trans _

/-! ## Remaining helper lemmas -/

theorem findInsight_append_single (store : List InsightRecord) (u : Nat)
    (d : String) (r : InsightRecord)
    (hnone : findInsight store u d = none)
    (hu : r.user_id = u) (hk : dayKey r.generated_date = d) :
    findInsight (store ++ [r]) u d = some r := by
  have h1 := findInsight_single_hit u d hu hk
  unfold findInsight at h1 hnone ⊢
  rw [List.find?_append, hnone]
  simpa using h1

theorem result_toOption_some {x : Except GenError InsightRecord}
    {r : InsightRecord} (h : x.toOption = some r) : x = .ok r := by
  cases x with
  | ok a =>
      simp only [Except.toOption, Option.some.injEq] at h
      rw [h]
  | error e => cases h

theorem isEmpty_eq_false_of_ne_nil {α : Type} {l : List α} (h : l ≠ []) :
    l.isEmpty = false := by
  cases l with
  | nil => exact absurd rfl h
  | cons a t => rfl

example : windowStartStr "2024-03-04" = "2024-02-27" := by decide

example :
    selectHistoryDates ["2024-01-01", "2024-01-03", "2024-01-05"] 2 =
      ["2024-01-03", "2024-01-05"] := by decide

/-! ## Claim theorems -/

/-- C1: Idempotent generation per (user, date).  When an `InsightRecord` for
the user and calendar day already exists, `getOrGenerateInsight` returns it
unchanged, makes no completion call, and writes no new row; and after a
successful first generation for a (user, date) with no pre-existing record,
a second call (even against a different log database and completion oracle)
returns the very same record content, short-circuiting at the idempotency
check with no completion call and no new row. -/
theorem idempotent_generation (db db2 : LogsDB) (comp comp2 : CompletionResult)
    (store : List InsightRecord) (u : Nat) (d : String)
    (hv : validDateFmt d = true) :
    (∀ r, findInsight store u d = some r →
        getOrGenerateInsight db comp store u d = ⟨.ok r, store, false, true⟩)
    ∧ (findInsight store u d = none →
        ∀ r, (getOrGenerateInsight db comp store u d).result = .ok r →
          getOrGenerateInsight db2 comp2
              (getOrGenerateInsight db comp store u d).insights u d =
            ⟨.ok r, (getOrGenerateInsight db comp store u d).insights,
              false, true⟩) := by
  constructor
  · intro r hfind
    exact getOrGenerate_existing db comp store u d r hv hfind
  · intro hnone r hok
    obtain ⟨hins, hu, hk⟩ := getOrGenerate_ok_shape db comp store u d r hnone hok
    have hfind2 : findInsight
        (getOrGenerateInsight db comp store u d).insights u d = some r := by
      rw [hins]
      exact findInsight_append_single store u d r hnone hu hk
    exact getOrGenerate_existing db2 comp2 _ u d r hv hfind2

theorem idempotent_generation_witness :
    getOrGenerateInsight ⟨[], []⟩ .badJson
        [⟨1, "T", "Some content", "General", "2024-01-05 00:00:00"⟩]
        1 "2024-01-05" =
      ⟨.ok ⟨1, "T", "Some content", "General", "2024-01-05 00:00:00"⟩,
        [⟨1, "T", "Some content", "General", "2024-01-05 00:00:00"⟩],
        false, true⟩
    ∧ getOrGenerateInsight ⟨[], []⟩ .fetchError
        (getOrGenerateInsight ⟨[], []⟩ (.ok none) [] 1 "2024-01-05").insights
        1 "2024-01-05" =
      ⟨.ok (noDataRecord 1 "2024-01-05"),
        (getOrGenerateInsight ⟨[], []⟩ (.ok none) [] 1 "2024-01-05").insights,
        false, true⟩ :=
  ⟨(idempotent_generation ⟨[], []⟩ ⟨[], []⟩ .badJson .badJson
      [⟨1, "T", "Some content", "General", "2024-01-05 00:00:00"⟩]
      1 "2024-01-05" (by decide)).1 _ (by decide),
   (idempotent_generation ⟨[], []⟩ ⟨[], []⟩ (.ok none) .fetchError
      [] 1 "2024-01-05" (by decide)).2 (by decide) _ (by decide)⟩

/-- C2 counterexample: with one daily log in the window (so the completion
client is reached) and a network failure of the `fetch` call, the pipeline
does NOT resolve into the persisted "No Actionable Insight" fallback record:
the failure propagates to the route's catch-all and is surfaced to the
caller as an error, and no row is written. -/
theorem completion_failure_counterexample :
    (getOrGenerateInsight ⟨[⟨1, "2024-01-05"⟩], []⟩ .fetchError
        [] 1 "2024-01-05").result = .error .completionFailure
    ∧ (getOrGenerateInsight ⟨[⟨1, "2024-01-05"⟩], []⟩ .fetchError
        [] 1 "2024-01-05").insights = [] := by decide

/-- C2 (amended): a missing completion text field is recovered and resolved
into the persisted "No Actionable Insight" fallback record; but a network
failure of the request or a malformed response body is surfaced to the
caller as an error (the route's outer catch turns it into a generic 500),
with no fallback record written. -/
theorem completion_failure_amended (db : LogsDB) (comp : CompletionResult)
    (store : List InsightRecord) (u : Nat) (d : String)
    (hv : validDateFmt d = true) (hfind : findInsight store u d = none)
    (hlogs : ((queryLogs db.dailyLogs u (windowStartStr d) d).isEmpty &&
        (queryLogs db.lifestyleLogs u (windowStartStr d) d).isEmpty) = false) :
    (comp = .fetchError ∨ comp = .badJson →
        getOrGenerateInsight db comp store u d =
          ⟨.error .completionFailure, store, true, true⟩)
    ∧ (∀ c, comp = .ok c →
        extractActionableInsight ((c.map trimStr).getD "") = none →
        getOrGenerateInsight db comp store u d =
          ⟨.ok (noActionableRecord u d), store ++ [noActionableRecord u d],
            true, true⟩) := by
  constructor
  · rintro (rfl | rfl)
    · exact getOrGenerate_comp_error db _ store u d _ hv hfind hlogs rfl
    · exact getOrGenerate_comp_error db _ store u d _ hv hfind hlogs rfl
  · rintro c rfl hext
    refine getOrGenerate_comp_ok db _ store u d _ hv hfind hlogs ?_
    simp [completionRecord, hext]

theorem completion_failure_amended_witness :
    getOrGenerateInsight ⟨[⟨1, "2024-01-05"⟩], []⟩ .fetchError
        [] 1 "2024-01-05" = ⟨.error .completionFailure, [], true, true⟩
    ∧ getOrGenerateInsight ⟨[⟨1, "2024-01-05"⟩], []⟩ (.ok none)
        [] 1 "2024-01-05" =
      ⟨.ok (noActionableRecord 1 "2024-01-05"),
        [noActionableRecord 1 "2024-01-05"], true, true⟩ :=
  ⟨(completion_failure_amended ⟨[⟨1, "2024-01-05"⟩], []⟩ .fetchError
      [] 1 "2024-01-05" (by decide) (by decide) (by decide)).1 (Or.inl rfl),
   (completion_failure_amended ⟨[⟨1, "2024-01-05"⟩], []⟩ (.ok none)
      [] 1 "2024-01-05" (by decide) (by decide) (by decide)).2
     none rfl (by decide)⟩

/-- C3: Malformed date rejection.  A date string that does not match the
exact `YYYY-MM-DD` pattern makes `getOrGenerateInsight` fail with the
invalid-date-format error (thrown by `getExistingInsight` before its query),
with no insight-store query, no write, and no completion call. -/
theorem malformedDate_rejected (db : LogsDB) (comp : CompletionResult)
    (store : List InsightRecord) (u : Nat) (d : String)
    (h : validDateFmt d = false) :
    getOrGenerateInsight db comp store u d =
      ⟨.error .invalidDateFormat, store, false, false⟩ :=
  getOrGenerate_invalid db comp store u d h

theorem malformedDate_rejected_witness :
    validDateFmt "01-01-2024" = false
    ∧ getOrGenerateInsight ⟨[], []⟩ .fetchError [] 7 "01-01-2024" =
        ⟨.error .invalidDateFormat, [], false, false⟩ :=
  ⟨by decide,
   malformedDate_rejected ⟨[], []⟩ .fetchError [] 7 "01-01-2024" (by decide)⟩

/-- C4: No-data determinism.  With a valid date, no pre-existing record, and
both 7-day-window queries empty, the pipeline makes no completion call and
persists and returns exactly the fixed "No Health Data" record with
`generated_date` equal to the target date at midnight. -/
theorem noData_determinism (db : LogsDB) (comp : CompletionResult)
    (store : List InsightRecord) (u : Nat) (d : String)
    (hv : validDateFmt d = true) (hfind : findInsight store u d = none)
    (hdl : queryLogs db.dailyLogs u (windowStartStr d) d = [])
    (hll : queryLogs db.lifestyleLogs u (windowStartStr d) d = []) :
    getOrGenerateInsight db comp store u d =
      ⟨.ok (noDataRecord u d), store ++ [noDataRecord u d], false, true⟩ := by
  refine getOrGenerate_noData db comp store u d hv hfind ?_
  rw [hdl, hll]
  rfl

theorem noData_determinism_witness :
    getOrGenerateInsight ⟨[], []⟩ .fetchError [] 1 "2024-01-05" =
      ⟨.ok (noDataRecord 1 "2024-01-05"), [noDataRecord 1 "2024-01-05"],
        false, true⟩
    ∧ noDataRecord 1 "2024-01-05" =
        ⟨1, "No Health Data",
          "No health or lifestyle data was logged for this day.",
          "General", "2024-01-05 00:00:00"⟩ :=
  ⟨noData_determinism ⟨[], []⟩ .fetchError [] 1 "2024-01-05"
     (by decide) (by decide) (by decide) (by decide),
   by decide⟩

/-- C5: Window computation.  The `setDate(getDate() - 6)` window start used
by both the single-date route and the history route is exactly the sixth
calendar predecessor of the target date; the window end is the target date
itself, and each log query returns exactly the user's rows with date in the
inclusive range `[windowStart, windowEnd]`, in ascending date order. -/
theorem window_computation (c : CivilDate) (hd : 1 ≤ c.day) :
    subDays6 c = predDay (predDay (predDay (predDay (predDay (predDay c)))))
    ∧ (∀ d : String, windowStartStr d = formatDate (subDays6 (parseDate d)))
    ∧ ∀ (rows : List LogRow) (u : Nat) (lo hi : String),
        List.Perm (queryLogs rows u lo hi)
          (rows.filter fun r =>
            (r.user_id == u) && strLe lo r.date && strLe r.date hi)
        ∧ List.Pairwise (fun a b => rowLe a b = true) (queryLogs rows u lo hi) :=
  ⟨subDays6_eq_six_predDays c hd,
   fun _ => rfl,
   fun rows u lo hi => ⟨queryLogs_perm rows u lo hi, queryLogs_sorted rows u lo hi⟩⟩

theorem window_computation_witness :
    subDays6 ⟨2024, 3, 4⟩ =
        predDay (predDay (predDay (predDay (predDay (predDay ⟨2024, 3, 4⟩)))))
    ∧ subDays6 ⟨2024, 3, 4⟩ = ⟨2024, 2, 27⟩
    ∧ windowStartStr "2024-03-04" = "2024-02-27" :=
  ⟨(window_computation ⟨2024, 3, 4⟩ (by decide)).1, by decide, by decide⟩

/-- C6: History completeness and order.  With a positive window and at least
one log date, the history route selects exactly the trailing `days` entries
of the ascending deduplicated set of the user's log dates; the most recent
log date is always among them; the selection is ascending and duplicate
free; the returned sequence is the order-preserving `filterMap` of the
per-date pipeline over that selection (one result per successfully processed
date); and the returned records are in ascending calendar-day order. -/
theorem history_completeness (db : LogsDB) (comp : String → CompletionResult)
    (u : Nat) (store : List InsightRecord) (days : Nat)
    (hdays : 1 ≤ days) (hne : getAllLogDates db u ≠ []) :
    selectHistoryDates (getAllLogDates db u) days =
        (getAllLogDates db u).drop ((getAllLogDates db u).length - days)
    ∧ (getAllLogDates db u).getLastD "" ∈
        selectHistoryDates (getAllLogDates db u) days
    ∧ List.Pairwise (fun a b => strLe a b = true)
        (selectHistoryDates (getAllLogDates db u) days)
    ∧ (selectHistoryDates (getAllLogDates db u) days).Nodup
    ∧ (listInsightsHistory db comp u store days).1 =
        (selectHistoryDates (getAllLogDates db u) days).filterMap
          (fun d => (getOrGenerateInsight db (comp d) store u d).result.toOption)
    ∧ List.Pairwise
        (fun a b =>
          strLe (dayKey a.generated_date) (dayKey b.generated_date) = true)
        (listInsightsHistory db comp u store days).1 := by
  have hA := getAllLogDates_sorted db u
  have hAnd := getAllLogDates_nodup db u
  have hsel := selectHistoryDates_eq_drop hA hAnd hne hdays
  have hmem : (getAllLogDates db u).getLastD "" ∈
      selectHistoryDates (getAllLogDates db u) days := by
    rw [hsel]
    exact getLastD_mem_drop hne hdays
  have hsorted : List.Pairwise (fun a b => strLe a b = true)
      (selectHistoryDates (getAllLogDates db u) days) := by
    rw [hsel]
    exact hA.sublist (List.drop_sublist _ _)
  have hnd : (selectHistoryDates (getAllLogDates db u) days).Nodup := by
    rw [hsel]
    exact (List.drop_sublist _ _).nodup hAnd
  have h1 : (getAllLogDates db u).isEmpty = false :=
    isEmpty_eq_false_of_ne_nil hne
  have h2 : (days == 0) = false := by
    have : days ≠ 0 := by omega
    simpa using this
  have hlist : listInsightsHistory db comp u store days =
      historyLoop db comp u store
        (selectHistoryDates (getAllLogDates db u) days) := by
    simp [listInsightsHistory, h1, h2]
  have hfm := historyLoop_filterMap db comp u store _ hnd
  refine ⟨hsel, hmem, hsorted, hnd, ?_, ?_⟩
  · rw [hlist]
    exact hfm
  · rw [hlist, hfm]
    refine pairwise_filterMap_of _ ?_ hsorted
    intro a a' hR b hb b' hb'
    have hka : dayKey b.generated_date = a :=
      (getOrGenerate_ok_key db (comp a) store u a b
        (result_toOption_some hb)).2
    have hka' : dayKey b'.generated_date = a' :=
      (getOrGenerate_ok_key db (comp a') store u a' b'
        (result_toOption_some hb')).2
    rw [hka, hka']
    exact hR

theorem history_completeness_witness :
    selectHistoryDates
        (getAllLogDates ⟨[⟨1, "2024-01-01"⟩, ⟨1, "2024-01-03"⟩,
          ⟨1, "2024-01-05"⟩], []⟩ 1) 2 =
      (getAllLogDates ⟨[⟨1, "2024-01-01"⟩, ⟨1, "2024-01-03"⟩,
          ⟨1, "2024-01-05"⟩], []⟩ 1).drop
        ((getAllLogDates ⟨[⟨1, "2024-01-01"⟩, ⟨1, "2024-01-03"⟩,
          ⟨1, "2024-01-05"⟩], []⟩ 1).length - 2)
    ∧ selectHistoryDates
        (getAllLogDates ⟨[⟨1, "2024-01-01"⟩, ⟨1, "2024-01-03"⟩,
          ⟨1, "2024-01-05"⟩], []⟩ 1) 2 = ["2024-01-03", "2024-01-05"] :=
  ⟨(history_completeness
      ⟨[⟨1, "2024-01-01"⟩, ⟨1, "2024-01-03"⟩, ⟨1, "2024-01-05"⟩], []⟩
      (fun _ => .ok none) 1 [] 2 (by decide) (by decide)).1,
   by decide⟩

/-- C7: Per-date failure isolation in history.  Over a duplicate-free date
list, the history loop returns exactly the order-preserving `filterMap` of
the per-date pipeline results: a date whose generation throws is caught and
omitted (no record of its day key appears in the output), the remaining
dates are still processed, and the loop as a whole always returns a result
list rather than failing. -/
theorem history_failure_isolation (db : LogsDB) (comp : String → CompletionResult)
    (u : Nat) (store : List InsightRecord) (ds : List String)
    (hnd : ds.Nodup) :
    (historyLoop db comp u store ds).1 =
      ds.filterMap
        (fun d => (getOrGenerateInsight db (comp d) store u d).result.toOption)
    ∧ ∀ d ∈ ds, ∀ e,
        (getOrGenerateInsight db (comp d) store u d).result = .error e →
        ∀ r ∈ (historyLoop db comp u store ds).1,
          dayKey r.generated_date ≠ d := by
  refine ⟨historyLoop_filterMap db comp u store ds hnd, ?_⟩
  intro d hd e herr r hr
  rw [historyLoop_filterMap db comp u store ds hnd] at hr
  obtain ⟨d', hd', hsome⟩ := List.mem_filterMap.mp hr
  have hres' := result_toOption_some hsome
  have hk := (getOrGenerate_ok_key db (comp d') store u d' r hres').2
  intro hkey
  rw [hkey] at hk
  rw [hk] at herr
  rw [herr] at hres'
  cases hres'

theorem history_failure_isolation_witness :
    (historyLoop ⟨[⟨1, "2024-01-03"⟩, ⟨1, "2024-01-05"⟩], []⟩
        (fun d => if d == "2024-01-03" then .fetchError else .ok none)
        1 [] ["2024-01-03", "2024-01-05"]).1 =
      ["2024-01-03", "2024-01-05"].filterMap
        (fun d =>
          (getOrGenerateInsight ⟨[⟨1, "2024-01-03"⟩, ⟨1, "2024-01-05"⟩], []⟩
            (if d == "2024-01-03" then .fetchError else .ok none)
            [] 1 d).result.toOption)
    ∧ (historyLoop ⟨[⟨1, "2024-01-03"⟩, ⟨1, "2024-01-05"⟩], []⟩
        (fun d => if d == "2024-01-03" then .fetchError else .ok none)
        1 [] ["2024-01-03", "2024-01-05"]).1 =
      [noActionableRecord 1 "2024-01-05"] :=
  ⟨(history_failure_isolation ⟨[⟨1, "2024-01-03"⟩, ⟨1, "2024-01-05"⟩], []⟩
      (fun d => if d == "2024-01-03" then .fetchError else .ok none)
      1 [] ["2024-01-03", "2024-01-05"] (by decide)).1,
   by decide⟩

/-- C9: Classification priority.  `determineCategory` is the first-match
keyword scan over the lowercased text in the fixed order sleep, then
exercise/activity, then water/hydration, then mood/emotional, then
symptom/pain, then medication/medicine, with "General" when nothing matches
(it coincides with the spec's ordered-rule formulation on every input); in
particular any text containing both "sleep" and "exercise" classifies as
"Sleep". -/
theorem classification_priority (s : String)
    (hs : hasSub (toLowerStr s) "sleep" = true)
    (he : hasSub (toLowerStr s) "exercise" = true) :
    determineCategory s = "Sleep"
    ∧ ∀ t, determineCategory t = categorySpec t := by
  refine ⟨by simp [determineCategory, hs], ?_⟩
  intro t
  by_cases h1 : hasSub (toLowerStr t) "sleep" = true
  · simp [determineCategory, categorySpec, categoryRules, List.find?, h1]
  by_cases h2 : hasSub (toLowerStr t) "exercise" = true
  · simp [determineCategory, categorySpec, categoryRules, List.find?, h1, h2]
  by_cases h3 : hasSub (toLowerStr t) "activity" = true
  · simp [determineCategory, categorySpec, categoryRules, List.find?, h1, h2, h3]
  by_cases h4 : hasSub (toLowerStr t) "water" = true
  · simp [determineCategory, categorySpec, categoryRules, List.find?,
      h1, h2, h3, h4]
  by_cases h5 : hasSub (toLowerStr t) "hydration" = true
  · simp [determineCategory, categorySpec, categoryRules, List.find?,
      h1, h2, h3, h4, h5]
  by_cases h6 : hasSub (toLowerStr t) "mood" = true
  · simp [determineCategory, categorySpec, categoryRules, List.find?,
      h1, h2, h3, h4, h5, h6]
  by_cases h7 : hasSub (toLowerStr t) "emotional" = true
  · simp [determineCategory, categorySpec, categoryRules, List.find?,
      h1, h2, h3, h4, h5, h6, h7]
  by_cases h8 : hasSub (toLowerStr t) "symptom" = true
  · simp [determineCategory, categorySpec, categoryRules, List.find?,
      h1, h2, h3, h4, h5, h6, h7, h8]
  by_cases h9 : hasSub (toLowerStr t) "pain" = true
  · simp [determineCategory, categorySpec, categoryRules, List.find?,
      h1, h2, h3, h4, h5, h6, h7, h8, h9]
  by_cases h10 : hasSub (toLowerStr t) "medication" = true
  · simp [determineCategory, categorySpec, categoryRules, List.find?,
      h1, h2, h3, h4, h5, h6, h7, h8, h9, h10]
  by_cases h11 : hasSub (toLowerStr t) "medicine" = true
  · simp [determineCategory, categorySpec, categoryRules, List.find?,
      h1, h2, h3, h4, h5, h6, h7, h8, h9, h10, h11]
  simp [determineCategory, categorySpec, categoryRules, List.find?,
    h1, h2, h3, h4, h5, h6, h7, h8, h9, h10, h11]

theorem classification_priority_witness :
    determineCategory "More sleep and more exercise" = "Sleep"
    ∧ determineCategory "daily exercise routine" = "Exercise" :=
  ⟨(classification_priority "More sleep and more exercise"
      (by decide) (by decide)).1,
   by decide⟩

/-- C10: Noise-filter over-rejection.  Any line containing (anywhere,
case-insensitively) "gmt", "ist", or "standard time", or a
two-digit:two-digit time pattern, is discarded by the extractor's line
filter; hence on any non-empty completion text all of whose lines are empty
or carry such a substring — including grammar-conforming `Title: Content`
lines whose title merely contains a word like "Consistent" — the extractor
returns `none` and the pipeline persists the "No Actionable Insight"
fallback record. -/
theorem noise_filter_overrejection (s : String) (hne : s.isEmpty = false)
    (hall : ∀ l ∈ (splitOnChar '\n' s).map trimStr,
        l.isEmpty = true ∨
        (hasSub (toLowerStr l) "gmt" || hasSub (toLowerStr l) "ist" ||
          hasSub (toLowerStr l) "standard time" || hasTimePatL l.data) = true) :
    extractActionableInsight s = none
    ∧ ∀ (db : LogsDB) (store : List InsightRecord) (u : Nat) (d c : String),
        validDateFmt d = true → findInsight store u d = none →
        ((queryLogs db.dailyLogs u (windowStartStr d) d).isEmpty &&
          (queryLogs db.lifestyleLogs u (windowStartStr d) d).isEmpty) = false →
        trimStr c = s →
        getOrGenerateInsight db (.ok (some c)) store u d =
          ⟨.ok (noActionableRecord u d), store ++ [noActionableRecord u d],
            true, true⟩ := by
  have hlines : extractLines s = [] := by
    unfold extractLines
    rw [List.filter_eq_nil_iff]
    intro l hl
    rcases hall l hl with h | h
    · simp [h]
    · have hnl : noisyLine l = true := by
        cases hg : hasSub (toLowerStr l) "gmt" <;>
          cases hi : hasSub (toLowerStr l) "ist" <;>
          cases hst : hasSub (toLowerStr l) "standard time" <;>
          cases ht : hasTimePatL l.data <;>
          simp_all [noisyLine]
      simp [hnl]
  have hextnone : extractActionableInsight s = none := by
    simp [extractActionableInsight, hne, hlines, firstColonCandidate,
      fallbackLine]
  refine ⟨hextnone, ?_⟩
  intro db store u d c hv hfind hlogs htrim
  refine getOrGenerate_comp_ok db _ store u d _ hv hfind hlogs ?_
  have hext2 : extractActionableInsight (trimStr c) = none := by
    rw [htrim]
    exact hextnone
  simp [completionRecord, hext2]

theorem noise_filter_overrejection_witness :
    extractActionableInsight
        "Consistent Sleep Routine: You slept 7-8 hours for the past 5 days. Try: 1) A, 2) B, 3) C." =
      none
    ∧ firstColonCandidate
        ["Consistent Sleep Routine: You slept 7-8 hours for the past 5 days. Try: 1) A, 2) B, 3) C."] =
      some ("Consistent Sleep Routine",
        "You slept 7-8 hours for the past 5 days. Try: 1) A, 2) B, 3) C.")
    ∧ getOrGenerateInsight ⟨[⟨1, "2024-01-05"⟩], []⟩
        (.ok (some "Consistent Sleep Routine: You slept 7-8 hours for the past 5 days. Try: 1) A, 2) B, 3) C."))
        [] 1 "2024-01-05" =
      ⟨.ok (noActionableRecord 1 "2024-01-05"),
        [noActionableRecord 1 "2024-01-05"], true, true⟩ :=
  ⟨(noise_filter_overrejection
      "Consistent Sleep Routine: You slept 7-8 hours for the past 5 days. Try: 1) A, 2) B, 3) C."
      (by decide) (by decide)).1,
   by decide,
   (noise_filter_overrejection
      "Consistent Sleep Routine: You slept 7-8 hours for the past 5 days. Try: 1) A, 2) B, 3) C."
      (by decide) (by decide)).2 ⟨[⟨1, "2024-01-05"⟩], []⟩ [] 1 "2024-01-05"
      "Consistent Sleep Routine: You slept 7-8 hours for the past 5 days. Try: 1) A, 2) B, 3) C."
      (by decide) (by decide) (by decide) (by decide)⟩

/-- C8: Extractor grammar round-trip.  The canonical `Title: Content`
completion line is split on the first colon, the title trimmed, and the
remainder (including later colons) kept intact as the content. -/
theorem extractor_grammar_roundtrip :
    extractActionableInsight
        "Sleep Pattern: Your mood has been low (2-3/5) for 3 days. Try: 1) X, 2) Y, 3) Z." =
      some ("Sleep Pattern",
        "Your mood has been low (2-3/5) for 3 days. Try: 1) X, 2) Y, 3) Z.") := by
  decide

end Pharmis
